import Mathlib

/-!
Shallow embedding of `runtime/src/sorted_storages.rs` (struct `SortedStorages`).

Modelling conventions:
* A slot (Rust `Slot` = `u64`) is modelled as `Nat`; arithmetic that can
  overflow in the
  source (`slot + 1` in the max fold) is taken modulo `U64 = 2 ^ 64`, i.e. the
  wrapping (release-mode) semantics of `u64`.  Subtractions in the source
  (`max - min`, `slot - min`, `slot - range.start`) only occur where the code
  guarantees the minuend is at least the subtrahend, so `Nat` subtraction
  coincides with `u64` subtraction there.
* A `SnapshotStorage` is a vector of storage entries; the only thing the code
  reads from an entry is its slot (`first().unwrap().slot()`), so an entry is
  modelled by its slot number and a `SnapshotStorage` by `List Nat`.
* Rust references `&'a SnapshotStorage` stored in the dense table are modelled
  by the index of the referenced storage in the caller-supplied `source` slice,
  which captures reference identity exactly.
* Rust panics (`assert!`, `assert_eq!`, out-of-bounds slice indexing) are
  modelled by `Except SError`; each distinct panic site gets its own error.
* Rust's `Range<Nat> { start, end }` is flattened into the two fields
  `rangeStart`, `rangeEnd`; `Range::contains` is `start ≤ slot ∧ slot < end`
  and `Range::default()` is `0..0`.
-/

/-- `2 ^ 64`, the modulus of Rust `u64` arithmetic. -/
def U64 : Nat := 2 ^ 64

/-- A `SnapshotStorage` is a vector of entries; each entry is modelled by the
slot number its `slot()` method returns. -/
abbrev SnapshotStorage := List Nat

/-- The panic sites of `sorted_storages.rs`, one constructor per distinct
panic: `assert_eq!` on lengths, the duplicate-slot `assert!`, slice indexing
out of bounds, and the `SnapshotStorage.is_empty()` `assert!` in `new`. -/
inductive SError where
  | lengthMismatch
  | duplicateSlot
  | indexOutOfBounds
  | emptyContainer
deriving DecidableEq

/-- The struct `SortedStorages<'a>`: the `range: Range<Nat>` field is
flattened into `rangeStart`/`rangeEnd`; `storages: Vec<Option<&'a
SnapshotStorage>>` holds, per slot in range, the index of the referenced
storage in the source slice; `slot_count: usize`. -/
structure SortedStorages where
  rangeStart : Nat
  rangeEnd : Nat
  storages : List (Option Nat)
  slot_count : Nat
deriving DecidableEq

/-- `SortedStorages::get`: `None` when `!self.range.contains(&slot)`; otherwise
index the dense table at `slot - self.range.start`.  The slice indexing
`self.storages[index]` panics when out of bounds, modelled as
`.error .indexOutOfBounds`. -/
def SortedStorages.get (ss : SortedStorages) (slot : Nat) :
    Except SError (Option Nat) :=
  if ss.rangeStart ≤ slot ∧ slot < ss.rangeEnd then
    let index := slot - ss.rangeStart
    if h : index < ss.storages.length then .ok (ss.storages.get ⟨index, h⟩)
    else .error .indexOutOfBounds
  else
    .ok none

/-- `SortedStorages::range_width`: `self.range.end - self.range.start`. -/
def SortedStorages.range_width (ss : SortedStorages) : Nat :=
  ss.rangeEnd - ss.rangeStart

/-- The single fold of `new_with_slots` over `slots`, starting from
`min = Slot::MAX`, `max = Slot::MIN`, updating `min = min(slot, min)` and
`max = max(slot + 1, max)` with wrapping `u64` addition. -/
def minMaxFold (slots : List Nat) : Nat × Nat :=
  slots.foldl (fun p s => (Nat.min s p.1, Nat.max ((s + 1) % U64) p.2))
    (U64 - 1, 0)

/-- The placement loop of `new_with_slots`:
`source.iter().zip(slots).for_each(...)`, writing into the dense table at
`(slot - min) as usize`.  `i` is the source index of the first remaining pair
(the stored "reference").  Slice indexing out of bounds and the
`assert!(storages[index].is_none(), "slots are not unique")` are the two
panics. -/
def placeAll (minv : Nat) (i : Nat) (slots : List Nat)
    (st : List (Option Nat)) : Except SError (List (Option Nat)) :=
  match slots with
  | [] => .ok st
  | slot :: rest =>
    let index := slot - minv
    if h : index < st.length then
      if (st.get ⟨index, h⟩).isNone then
        placeAll minv (i + 1) rest (st.set index (some i))
      else .error .duplicateSlot
    else .error .indexOutOfBounds

/-- `SortedStorages::new_with_slots`: the length `assert_eq!`, the min/max
fold, the `min > max` test selecting `Range::default()` with an empty table,
and otherwise the placement loop over a table of `max - min` `None`s. -/
def new_with_slots (source : List SnapshotStorage) (slots : List Nat) :
    Except SError SortedStorages :=
  if source.length = slots.length then
    let mm := minMaxFold slots
    if mm.2 < mm.1 then
      .ok { rangeStart := 0, rangeEnd := 0, storages := [],
            slot_count := source.length }
    else
      (placeAll mm.1 0 slots (List.replicate (mm.2 - mm.1) none)).map
        fun st =>
          { rangeStart := mm.1, rangeEnd := mm.2, storages := st,
            slot_count := source.length }
  else .error .lengthMismatch

/-- The slot-deriving map of `SortedStorages::new`:
`source.iter().map(|storages| { assert!(first.is_some()); first.unwrap().slot() })
.collect()`.  An empty storage hits the `"SnapshotStorage.is_empty()"`
`assert!`. -/
def deriveSlots : List SnapshotStorage → Except SError (List Nat)
  | [] => .ok []
  | c :: rest =>
    match c.head? with
    | none => .error .emptyContainer
    | some e => (deriveSlots rest).map fun l => e :: l

/-- `SortedStorages::new`: derive one slot per storage from its first entry,
then delegate to `new_with_slots`. -/
def new (source : List SnapshotStorage) : Except SError SortedStorages :=
  (deriveSlots source).bind fun slots => new_with_slots source slots

/-! ### Helper lemmas: the min/max fold -/

/-- A fold that updates the two components of a pair independently is the pair
of the two component folds. -/
theorem foldl_pair_eq (l : List Nat) (a b : Nat) :
    l.foldl (fun p s => (Nat.min s p.1, Nat.max ((s + 1) % U64) p.2)) (a, b) =
      (l.foldl (fun m s => Nat.min s m) a,
       l.foldl (fun m s => Nat.max ((s + 1) % U64) m) b) := by
  induction l generalizing a b with
  | nil => rfl
  | cons s t ih => simpa [List.foldl_cons] using ih (Nat.min s a) (Nat.max ((s + 1) % U64) b)

/-- `minMaxFold` splits into the min fold and the max fold. -/
theorem minMaxFold_eq (slots : List Nat) :
    minMaxFold slots =
      (slots.foldl (fun m s => Nat.min s m) (U64 - 1),
       slots.foldl (fun m s => Nat.max ((s + 1) % U64) m) 0) :=
  foldl_pair_eq slots (U64 - 1) 0

theorem foldl_min_le_init (l : List Nat) (a : Nat) :
    l.foldl (fun m s => Nat.min s m) a ≤ a := by
  induction l generalizing a with
  | nil => exact Nat.le_refl a
  | cons x t ih => exact Nat.le_trans (ih (Nat.min x a)) (Nat.min_le_right x a)

theorem foldl_min_le_mem {l : List Nat} {s : Nat} (hs : s ∈ l) (a : Nat) :
    l.foldl (fun m s => Nat.min s m) a ≤ s := by
  induction l generalizing a with
  | nil => cases hs
  | cons x t ih =>
    rcases List.mem_cons.1 hs with rfl | h
    · exact Nat.le_trans (foldl_min_le_init t _) (Nat.min_le_left s a)
    · exact ih h _

theorem foldl_min_ge {l : List Nat} {c : Nat} (a : Nat) (ha : c ≤ a)
    (h : ∀ s ∈ l, c ≤ s) : c ≤ l.foldl (fun m s => Nat.min s m) a := by
  induction l generalizing a with
  | nil => exact ha
  | cons x t ih =>
    exact ih _ (Nat.le_min.2 ⟨h x (List.mem_cons_self x t), ha⟩)
      (fun s hs => h s (List.mem_cons_of_mem x hs))

theorem foldl_min_eq_init_or_mem (l : List Nat) (a : Nat) :
    l.foldl (fun m s => Nat.min s m) a = a ∨
      l.foldl (fun m s => Nat.min s m) a ∈ l := by
  induction l generalizing a with
  | nil => exact Or.inl rfl
  | cons x t ih =>
    rw [List.foldl_cons]
    rcases ih (Nat.min x a) with h | h
    · rw [h]
      unfold Nat.min
      rcases Nat.le_total x a with hxa | hax
      · exact Or.inr (by rw [Nat.min_eq_left hxa]; exact List.mem_cons_self x t)
      · exact Or.inl (Nat.min_eq_right hax)
    · exact Or.inr (List.mem_cons_of_mem x h)

theorem foldl_max_ge_init (l : List Nat) (a : Nat) :
    a ≤ l.foldl (fun m s => Nat.max ((s + 1) % U64) m) a := by
  induction l generalizing a with
  | nil => exact Nat.le_refl a
  | cons x t ih => exact Nat.le_trans (Nat.le_max_right _ a) (ih _)

theorem foldl_max_ge_mem {l : List Nat} {s : Nat} (hs : s ∈ l) (a : Nat) :
    (s + 1) % U64 ≤ l.foldl (fun m s => Nat.max ((s + 1) % U64) m) a := by
  induction l generalizing a with
  | nil => cases hs
  | cons x t ih =>
    rcases List.mem_cons.1 hs with rfl | h
    · exact Nat.le_trans (Nat.le_max_left _ a) (foldl_max_ge_init t _)
    · exact ih h _

theorem foldl_max_le {l : List Nat} {c : Nat} (a : Nat) (ha : a ≤ c)
    (h : ∀ s ∈ l, (s + 1) % U64 ≤ c) :
    l.foldl (fun m s => Nat.max ((s + 1) % U64) m) a ≤ c := by
  induction l generalizing a with
  | nil => exact ha
  | cons x t ih =>
    exact ih _ (Nat.max_le.2 ⟨h x (List.mem_cons_self x t), ha⟩)
      (fun s hs => h s (List.mem_cons_of_mem x hs))

theorem foldl_max_eq_init_or_mem (l : List Nat) (a : Nat) :
    l.foldl (fun m s => Nat.max ((s + 1) % U64) m) a = a ∨
      ∃ s ∈ l, l.foldl (fun m s => Nat.max ((s + 1) % U64) m) a = (s + 1) % U64 := by
  induction l generalizing a with
  | nil => exact Or.inl rfl
  | cons x t ih =>
    rw [List.foldl_cons]
    rcases ih (Nat.max ((x + 1) % U64) a) with h | h
    · rw [h]
      rcases Nat.le_total ((x + 1) % U64) a with hxa | hax
      · exact Or.inl (Nat.max_eq_right hxa)
      · exact Or.inr ⟨x, List.mem_cons_self x t, Nat.max_eq_left hax⟩
    · rcases h with ⟨s, hs, he⟩
      exact Or.inr ⟨s, List.mem_cons_of_mem x hs, he⟩

/-! ### Helper lemmas: the placement loop -/

theorem placeAll_ok_length {minv i : Nat} {slots : List Nat}
    {st st' : List (Option Nat)}
    (h : placeAll minv i slots st = .ok st') : st'.length = st.length := by
  induction slots generalizing i st with
  | nil =>
    simp only [placeAll] at h
    cases h
    rfl
  | cons slot rest ih =>
    simp only [placeAll] at h
    split at h
    · split at h
      · have := ih h
        rwa [List.length_set] at this
      · cases h
    · cases h

theorem placeAll_ok_preserves_some {minv i : Nat} {slots : List Nat}
    {st st' : List (Option Nat)} {j v : Nat}
    (h : placeAll minv i slots st = .ok st') (hj : st[j]? = some (some v)) :
    st'[j]? = some (some v) := by
  induction slots generalizing i st with
  | nil =>
    simp only [placeAll] at h
    cases h
    exact hj
  | cons slot rest ih =>
    simp only [placeAll] at h
    split at h
    case isTrue hlt =>
      split at h
      case isTrue hnone =>
        have hne : slot - minv ≠ j := by
          intro he
          rw [← he] at hj
          rw [List.getElem?_eq_getElem hlt] at hj
          have hv : st.get ⟨slot - minv, hlt⟩ = some v := by
            simpa using hj
          rw [hv] at hnone
          simp at hnone
        exact ih h (by rw [List.getElem?_set_ne hne]; exact hj)
      case isFalse => cases h
    case isFalse => cases h

theorem placeAll_ok_no_target {minv i : Nat} {slots : List Nat}
    {st st' : List (Option Nat)} {j v : Nat}
    (h : placeAll minv i slots st = .ok st') (hj : st[j]? = some (some v)) :
    ∀ s ∈ slots, s - minv ≠ j := by
  induction slots generalizing i st with
  | nil => intro s hs; cases hs
  | cons slot rest ih =>
    simp only [placeAll] at h
    split at h
    case isTrue hlt =>
      split at h
      case isTrue hnone =>
        have hne : slot - minv ≠ j := by
          intro he
          rw [← he] at hj
          rw [List.getElem?_eq_getElem hlt] at hj
          have hv : st.get ⟨slot - minv, hlt⟩ = some v := by
            simpa using hj
          rw [hv] at hnone
          simp at hnone
        intro s hs
        rcases List.mem_cons.1 hs with rfl | hs'
        · exact hne
        · exact ih h (by rw [List.getElem?_set_ne hne]; exact hj) s hs'
      case isFalse => cases h
    case isFalse => cases h

theorem placeAll_ok_target {minv i : Nat} {slots : List Nat}
    {st st' : List (Option Nat)}
    (h : placeAll minv i slots st = .ok st') :
    ∀ m (hm : m < slots.length),
      st'[slots.get ⟨m, hm⟩ - minv]? = some (some (i + m)) := by
  induction slots generalizing i st with
  | nil => intro m hm; cases (Nat.not_lt_zero m) hm
  | cons slot rest ih =>
    simp only [placeAll] at h
    split at h
    case isTrue hlt =>
      split at h
      case isTrue hnone =>
        intro m hm
        cases m with
        | zero =>
          have hset :
              (st.set (slot - minv) (some i))[slot - minv]? = some (some i) :=
            List.getElem?_set_eq_of_lt _ hlt
          simpa using placeAll_ok_preserves_some h hset
        | succ m' =>
          have hm' : m' < rest.length := Nat.lt_of_succ_lt_succ hm
          have := ih h m' hm'
          have harith : i + 1 + m' = i + (m' + 1) := by omega
          rw [harith] at this
          exact this
      case isFalse => cases h
    case isFalse => cases h

theorem placeAll_ok_hole {minv i : Nat} {slots : List Nat}
    {st st' : List (Option Nat)} {j : Nat}
    (h : placeAll minv i slots st = .ok st')
    (hj : ∀ s ∈ slots, s - minv ≠ j) :
    st'[j]? = st[j]? := by
  induction slots generalizing i st with
  | nil =>
    simp only [placeAll] at h
    cases h
    rfl
  | cons slot rest ih =>
    simp only [placeAll] at h
    split at h
    case isTrue hlt =>
      split at h
      case isTrue hnone =>
        have h1 := ih h (fun s hs => hj s (List.mem_cons_of_mem slot hs))
        rw [h1, List.getElem?_set_ne (hj slot (List.mem_cons_self slot rest))]
      case isFalse => cases h
    case isFalse => cases h

theorem placeAll_ok_nodup {minv i : Nat} {slots : List Nat}
    {st st' : List (Option Nat)}
    (h : placeAll minv i slots st = .ok st') :
    (slots.map fun s => s - minv).Nodup := by
  induction slots generalizing i st with
  | nil => simp
  | cons slot rest ih =>
    simp only [placeAll] at h
    split at h
    case isTrue hlt =>
      split at h
      case isTrue hnone =>
        have hset :
            (st.set (slot - minv) (some i))[slot - minv]? = some (some i) :=
          List.getElem?_set_eq_of_lt _ hlt
        have hnotin := placeAll_ok_no_target h hset
        rw [List.map_cons, List.nodup_cons]
        refine ⟨?_, ih h⟩
        intro hmem
        rcases List.mem_map.1 hmem with ⟨s, hs, hyes⟩
        exact hnotin s hs hyes
      case isFalse => cases h
    case isFalse => cases h

theorem placeAll_cases (minv i : Nat) (slots : List Nat)
    (st : List (Option Nat)) :
    (∃ st', placeAll minv i slots st = .ok st') ∨
      placeAll minv i slots st = .error .duplicateSlot ∨
      placeAll minv i slots st = .error .indexOutOfBounds := by
  induction slots generalizing i st with
  | nil => exact Or.inl ⟨st, rfl⟩
  | cons slot rest ih =>
    simp only [placeAll]
    split
    · split
      · exact ih (i + 1) (st.set (slot - minv) (some i))
      · exact Or.inr (Or.inl rfl)
    · exact Or.inr (Or.inr rfl)

theorem placeAll_not_oob {minv i : Nat} {slots : List Nat}
    {st : List (Option Nat)}
    (hb : ∀ s ∈ slots, s - minv < st.length) :
    placeAll minv i slots st ≠ .error .indexOutOfBounds := by
  induction slots generalizing i st with
  | nil => simp [placeAll]
  | cons slot rest ih =>
    simp only [placeAll]
    split
    case isTrue hlt =>
      split
      case isTrue =>
        exact ih fun s hs => by
          rw [List.length_set]
          exact hb s (List.mem_cons_of_mem slot hs)
      case isFalse => simp
    case isFalse hge =>
      exact absurd (hb slot (List.mem_cons_self slot rest)) hge

/-- With all indices in bounds, a duplicated slot forces the placement loop to
end in the duplicate-slot panic. -/
theorem placeAll_dup_fails {minv i : Nat} {slots : List Nat}
    {st : List (Option Nat)}
    (hb : ∀ s ∈ slots, s - minv < st.length)
    (hdup : ¬ slots.Nodup) :
    placeAll minv i slots st = .error .duplicateSlot := by
  rcases placeAll_cases minv i slots st with ⟨st', hok⟩ | hd | hoob
  · exact absurd (List.Nodup.of_map _ (placeAll_ok_nodup hok)) hdup
  · exact hd
  · exact absurd hoob (placeAll_not_oob hb)

/-! ### Helper lemmas: the constructors -/

theorem except_map_eq_ok {α β : Type} {f : α → β} {e : Except SError α} {b : β}
    (h : e.map f = .ok b) : ∃ a, e = .ok a ∧ b = f a := by
  cases e with
  | ok a =>
    refine ⟨a, rfl, ?_⟩
    simp only [Except.map] at h
    cases h
    rfl
  | error err => simp [Except.map] at h

theorem except_map_error {α β : Type} (f : α → β) (err : SError) :
    (Except.error err : Except SError α).map f = .error err := rfl

/-- Case analysis of a successful `new_with_slots` run: the lengths agree, and
either the `min > max` sentinel fired and the view is the degenerate one, or
the placement loop succeeded on a table of `max - min` holes. -/
theorem new_with_slots_ok {source : List SnapshotStorage} {slots : List Nat}
    {ss : SortedStorages} (hok : new_with_slots source slots = .ok ss) :
    source.length = slots.length ∧
      (((minMaxFold slots).2 < (minMaxFold slots).1 ∧
          ss = ⟨0, 0, [], source.length⟩) ∨
        (¬ (minMaxFold slots).2 < (minMaxFold slots).1 ∧
          ∃ st,
            placeAll (minMaxFold slots).1 0 slots
                (List.replicate ((minMaxFold slots).2 - (minMaxFold slots).1)
                  none) = .ok st ∧
              ss = ⟨(minMaxFold slots).1, (minMaxFold slots).2, st,
                source.length⟩)) := by
  unfold new_with_slots at hok
  split at hok
  case isTrue hlen =>
    refine ⟨hlen, ?_⟩
    simp only [] at hok
    split at hok
    case isTrue hsent =>
      cases hok
      exact Or.inl ⟨hsent, rfl⟩
    case isFalse hsent =>
      rcases except_map_eq_ok hok with ⟨st, hst, hss⟩
      exact Or.inr ⟨hsent, st, hst, hss.symm ▸ rfl⟩
  case isFalse => cases hok

/-- When every supplied slot is below `Slot::MAX`, `slot + 1` does not wrap. -/
theorem mod_drop {s : Nat} (hs : s < U64 - 1) : (s + 1) % U64 = s + 1 := by
  apply Nat.mod_eq_of_lt
  unfold U64 at *
  omega

/-- Bounds delivered by the fold: `min ≤ s` and `s < max` for every supplied
slot below `Slot::MAX`. -/
theorem minMaxFold_bounds {slots : List Nat} {s : Nat} (hs : s ∈ slots)
    (hlt : s < U64 - 1) :
    (minMaxFold slots).1 ≤ s ∧ s < (minMaxFold slots).2 := by
  rw [minMaxFold_eq]
  refine ⟨foldl_min_le_mem hs (U64 - 1), ?_⟩
  have h1 := foldl_max_ge_mem hs 0
  rw [mod_drop hlt] at h1
  omega

/-- `min ≤ s` for every supplied slot, with no hypothesis on wrapping. -/
theorem minMaxFold_fst_le {slots : List Nat} {s : Nat} (hs : s ∈ slots) :
    (minMaxFold slots).1 ≤ s := by
  rw [minMaxFold_eq]
  exact foldl_min_le_mem hs (U64 - 1)

/-- If some entry of `source` is the empty vector, `deriveSlots` hits the
`SnapshotStorage.is_empty()` panic. -/
theorem deriveSlots_error {source : List SnapshotStorage}
    (h : [] ∈ source) : deriveSlots source = .error .emptyContainer := by
  induction source with
  | nil => cases h
  | cons c rest ih =>
    rcases List.mem_cons.1 h with rfl | h'
    · rfl
    · cases hc : c.head? with
      | none => simp [deriveSlots, hc]
      | some e => simp [deriveSlots, hc, ih h', Except.map]

/-- If every entry of `source` is non-empty, `deriveSlots` returns the heads. -/
theorem deriveSlots_ok {source : List SnapshotStorage}
    (h : ∀ c ∈ source, c ≠ []) :
    deriveSlots source = .ok (source.map fun c => c.headD 0) := by
  induction source with
  | nil => rfl
  | cons c rest ih =>
    cases c with
    | nil => exact absurd rfl (h [] (List.mem_cons_self [] rest))
    | cons e tl =>
      have hrest := ih fun c hc => h c (List.mem_cons_of_mem _ hc)
      simp [deriveSlots, hrest, Except.map]

/-! ### Helper lemmas: evaluating the accessors on a literal view -/

theorem rangeStart_mk (a b : Nat) (st : List (Option Nat)) (n : Nat) :
    SortedStorages.rangeStart ⟨a, b, st, n⟩ = a := rfl

theorem rangeEnd_mk (a b : Nat) (st : List (Option Nat)) (n : Nat) :
    SortedStorages.rangeEnd ⟨a, b, st, n⟩ = b := rfl

theorem storages_mk (a b : Nat) (st : List (Option Nat)) (n : Nat) :
    SortedStorages.storages ⟨a, b, st, n⟩ = st := rfl

theorem slot_count_mk (a b : Nat) (st : List (Option Nat)) (n : Nat) :
    SortedStorages.slot_count ⟨a, b, st, n⟩ = n := rfl

theorem get_eval (a b : Nat) (st : List (Option Nat)) (n t : Nat) :
    SortedStorages.get ⟨a, b, st, n⟩ t =
      if a ≤ t ∧ t < b then
        if h : t - a < st.length then .ok (st.get ⟨t - a, h⟩)
        else .error .indexOutOfBounds
      else .ok none := rfl

/-- On a view with the degenerate range `0..0`, every lookup is absent. -/
theorem get_empty_view (n t : Nat) :
    SortedStorages.get ⟨0, 0, [], n⟩ t = .ok none := by
  rw [get_eval]
  have h : ¬ (0 ≤ t ∧ t < 0) := by omega
  rw [if_neg h]

theorem minMaxFold_fst (slots : List Nat) :
    (minMaxFold slots).1 = slots.foldl (fun m s => Nat.min s m) (U64 - 1) := by
  rw [minMaxFold_eq]

theorem minMaxFold_snd (slots : List Nat) :
    (minMaxFold slots).2 =
      slots.foldl (fun m s => Nat.max ((s + 1) % U64) m) 0 := by
  rw [minMaxFold_eq]

/-- `Slot::MAX + 1` wraps to `0` in `u64` arithmetic. -/
theorem max_slot_wrap : (U64 - 1 + 1) % U64 = 0 := by
  have h : U64 - 1 + 1 = U64 := by unfold U64; omega
  rw [h, Nat.mod_self]

/-! ### Claim theorems -/

/-- Claim C6: constructing from zero pairs succeeds (it is not an error), the
view has the canonical empty range (`start = end = 0`, so no subtraction
underflow), `range_width = 0`, `slot_count = 0`, and `get` returns absent for
every slot including `0`. -/
theorem C6_empty_input :
    ∃ ss, new_with_slots [] [] = .ok ss ∧
      ss.rangeStart = 0 ∧ ss.rangeEnd = 0 ∧ ss.rangeStart ≤ ss.rangeEnd ∧
      ss.range_width = 0 ∧ ss.slot_count = 0 ∧
      ∀ t, ss.get t = .ok none :=
  ⟨⟨0, 0, [], 0⟩, rfl, rfl, rfl, Nat.le_refl 0, rfl, rfl,
    fun t => get_empty_view 0 t⟩

/-- Claim C7: for input sequences of different lengths, `new_with_slots` fails
with the length-mismatch error. -/
theorem C7_length_mismatch (source : List SnapshotStorage) (slots : List Nat)
    (h : source.length ≠ slots.length) :
    new_with_slots source slots = .error .lengthMismatch := by
  unfold new_with_slots
  rw [if_neg h]

/-- Witness for C7 at the mismatched input of the source's own test. -/
theorem C7_witness :
    new_with_slots [[]] [0, 0] = .error .lengthMismatch :=
  C7_length_mismatch [[]] [0, 0] (by decide)

/-- Claim C9: on every accepted input the recorded `slot_count` equals the
number of input pairs (the common length of the two input sequences),
independent of the range width; queries are pure functions of the immutable
view, so none of them can change it. -/
theorem C9_count (source : List SnapshotStorage) (slots : List Nat)
    (ss : SortedStorages) (hok : new_with_slots source slots = .ok ss) :
    ss.slot_count = source.length ∧ ss.slot_count = slots.length := by
  rcases new_with_slots_ok hok with ⟨hlen, hcase⟩
  rcases hcase with ⟨_, rfl⟩ | ⟨_, st, _, rfl⟩
  · exact ⟨rfl, hlen⟩
  · exact ⟨rfl, hlen⟩

/-- Witness for C9 on the two-storage input at slots 4 and 7. -/
theorem C9_witness :
    SortedStorages.slot_count ⟨4, 8, [some 0, none, none, some 1], 2⟩ = 2 :=
  (C9_count [[], []] [4, 7] ⟨4, 8, [some 0, none, none, some 1], 2⟩ rfl).1

/-- Claim C4: on every constructed view the dense table length equals
`range.end - range.start` (which is `0` for the empty range and never
underflows, since `start ≤ end`), so the index computed by `get` for an
in-range slot is within bounds and `get` never reaches the out-of-bounds
panic: it returns `.ok` for every slot argument. -/
theorem C4_get_total (source : List SnapshotStorage) (slots : List Nat)
    (ss : SortedStorages) (hok : new_with_slots source slots = .ok ss)
    (t : Nat) :
    ss.storages.length = ss.rangeEnd - ss.rangeStart ∧
      ss.rangeStart ≤ ss.rangeEnd ∧ ∃ r, ss.get t = .ok r := by
  rcases new_with_slots_ok hok with ⟨hlen, hcase⟩
  rcases hcase with ⟨hsent, rfl⟩ | ⟨hsent, st, hst, rfl⟩
  · exact ⟨rfl, Nat.le_refl 0, none, get_empty_view _ t⟩
  · have hlenst :
        st.length = (minMaxFold slots).2 - (minMaxFold slots).1 := by
      rw [placeAll_ok_length hst, List.length_replicate]
    refine ⟨hlenst, Nat.le_of_not_lt hsent, ?_⟩
    by_cases hin : (minMaxFold slots).1 ≤ t ∧ t < (minMaxFold slots).2
    · have hidx : t - (minMaxFold slots).1 < st.length := by
        rw [hlenst]
        omega
      exact ⟨st.get ⟨t - (minMaxFold slots).1, hidx⟩,
        by rw [get_eval, if_pos hin, dif_pos hidx]⟩
    · exact ⟨none, by rw [get_eval, if_neg hin]⟩

/-- Witness for C4 on the two-storage input at slots 4 and 7, queried far out
of range. -/
theorem C4_witness :
    ∃ r, SortedStorages.get ⟨4, 8, [some 0, none, none, some 1], 2⟩ 100 =
      .ok r :=
  (C4_get_total [[], []] [4, 7] ⟨4, 8, [some 0, none, none, some 1], 2⟩ rfl
    100).2.2

/-- Claim C3: on every constructed view, `get` returns absent (`.ok none`)
both for every slot outside `[range.start, range.end)` and for every in-range
slot that is not among the supplied slots (a hole). -/
theorem C3_lookup_absent (source : List SnapshotStorage) (slots : List Nat)
    (ss : SortedStorages) (hok : new_with_slots source slots = .ok ss)
    (t : Nat) :
    (¬ (ss.rangeStart ≤ t ∧ t < ss.rangeEnd) → ss.get t = .ok none) ∧
      ((ss.rangeStart ≤ t ∧ t < ss.rangeEnd) → t ∉ slots →
        ss.get t = .ok none) := by
  rcases new_with_slots_ok hok with ⟨hlen, hcase⟩
  rcases hcase with ⟨hsent, rfl⟩ | ⟨hsent, st, hst, rfl⟩
  · refine ⟨fun _ => get_empty_view _ t, fun hin _ => ?_⟩
    rw [rangeStart_mk, rangeEnd_mk] at hin
    exact absurd hin.2 (Nat.not_lt_zero t)
  · constructor
    · intro hout
      rw [rangeStart_mk, rangeEnd_mk] at hout
      rw [get_eval, if_neg hout]
    · intro hin hmem
      rw [rangeStart_mk, rangeEnd_mk] at hin
      have hlenst :
          st.length = (minMaxFold slots).2 - (minMaxFold slots).1 := by
        rw [placeAll_ok_length hst, List.length_replicate]
      have hidx : t - (minMaxFold slots).1 < st.length := by
        rw [hlenst]
        omega
      have hne : ∀ s ∈ slots,
          s - (minMaxFold slots).1 ≠ t - (minMaxFold slots).1 := by
        intro s hs he
        have h1 := minMaxFold_fst_le hs
        have h2 : s = t := by omega
        exact hmem (h2 ▸ hs)
      have hhole := placeAll_ok_hole hst hne
      rw [List.getElem?_replicate] at hhole
      rw [if_pos (by omega : t - (minMaxFold slots).1 <
        (minMaxFold slots).2 - (minMaxFold slots).1)] at hhole
      have hval : st.get ⟨t - (minMaxFold slots).1, hidx⟩ = none := by
        rw [List.getElem?_eq_getElem hidx] at hhole
        simpa using hhole
      rw [get_eval, if_pos hin, dif_pos hidx, hval]

/-- Witness for C3 on the two-storage input at slots 4 and 7: slot 5 is an
in-range hole. -/
theorem C3_witness :
    SortedStorages.get ⟨4, 8, [some 0, none, none, some 1], 2⟩ 5 =
      .ok none :=
  (C3_lookup_absent [[], []] [4, 7]
    ⟨4, 8, [some 0, none, none, some 1], 2⟩ rfl 5).2 (by decide) (by decide)

/-- Counterexample to claim C1 as stated: the input with the single pair at
slot `Slot::MAX = 2^64 - 1` has equal lengths and pairwise-distinct slots and
is accepted by construction, yet — because `slot + 1` wraps to `0` and the
`min > max` sentinel fires — the view is the degenerate one and `get` on the
supplied slot returns absent, not the supplied storage (index `0`). -/
theorem C1_counterexample :
    new_with_slots [[]] [U64 - 1] = .ok ⟨0, 0, [], 1⟩ ∧
      SortedStorages.get ⟨0, 0, [], 1⟩ (U64 - 1) = .ok none ∧
      (Except.ok none : Except SError (Option Nat)) ≠ .ok (some 0) :=
  ⟨rfl, rfl, by simp⟩

/-- Claim C1, amended: for every input accepted by construction (equal-length
sequences, pairwise-distinct slots) in which every slot is additionally below
`Slot::MAX = 2^64 - 1`, `get` on each supplied slot returns the reference to
(source index of) exactly the storage supplied at that slot. -/
theorem C1_lookup_sound (source : List SnapshotStorage) (slots : List Nat)
    (ss : SortedStorages)
    (hlt : ∀ s ∈ slots, s < U64 - 1)
    (hok : new_with_slots source slots = .ok ss)
    (i : Nat) (hi : i < slots.length) :
    ss.get (slots.get ⟨i, hi⟩) = .ok (some i) := by
  have hm : slots.get ⟨i, hi⟩ ∈ slots := List.get_mem slots i hi
  have hb := minMaxFold_bounds hm (hlt _ hm)
  rcases new_with_slots_ok hok with ⟨hlen, hcase⟩
  rcases hcase with ⟨hsent, rfl⟩ | ⟨hsent, st, hst, rfl⟩
  · exact absurd hsent (by omega)
  · have hlenst :
        st.length = (minMaxFold slots).2 - (minMaxFold slots).1 := by
      rw [placeAll_ok_length hst, List.length_replicate]
    have hidx :
        slots.get ⟨i, hi⟩ - (minMaxFold slots).1 < st.length := by
      rw [hlenst]
      omega
    have htar := placeAll_ok_target hst i hi
    have hval : st.get ⟨slots.get ⟨i, hi⟩ - (minMaxFold slots).1, hidx⟩ =
        some i := by
      rw [List.getElem?_eq_getElem hidx] at htar
      simpa using htar
    rw [get_eval, if_pos ⟨hb.1, hb.2⟩, dif_pos hidx, hval]

/-- Witness for the amended C1 on the two-storage input at slots 4 and 7. -/
theorem C1_witness :
    SortedStorages.get ⟨4, 8, [some 0, none, none, some 1], 2⟩ 4 =
      .ok (some 0) :=
  C1_lookup_sound [[], []] [4, 7] ⟨4, 8, [some 0, none, none, some 1], 2⟩
    (by decide) rfl 0 (by decide)

/-- Counterexample to claim C2 as stated: the non-empty input with the single
slot `Slot::MAX = 2^64 - 1` is accepted, yet the constructed range is the
default `0..0`: its start is `0`, not the minimum supplied slot `2^64 - 1`. -/
theorem C2_counterexample :
    new_with_slots [[]] [U64 - 1] = .ok ⟨0, 0, [], 1⟩ ∧
      SortedStorages.rangeStart ⟨0, 0, [], 1⟩ ≠ U64 - 1 :=
  ⟨rfl, by rw [rangeStart_mk]; unfold U64; omega⟩

/-- Claim C2, amended: for every non-empty accepted input in which every slot
is additionally below `Slot::MAX = 2^64 - 1`, `range.start` is the minimum of
the supplied slots and `range.end` is the maximum supplied slot plus one. -/
theorem C2_range_correct (source : List SnapshotStorage) (slots : List Nat)
    (ss : SortedStorages)
    (hne : slots ≠ [])
    (hlt : ∀ s ∈ slots, s < U64 - 1)
    (hok : new_with_slots source slots = .ok ss) :
    (ss.rangeStart ∈ slots ∧ ∀ s ∈ slots, ss.rangeStart ≤ s) ∧
      ∃ m ∈ slots, ss.rangeEnd = m + 1 ∧ ∀ s ∈ slots, s ≤ m := by
  obtain ⟨s0, hs0⟩ : ∃ s, s ∈ slots := by
    cases slots with
    | nil => exact absurd rfl hne
    | cons x t => exact ⟨x, List.mem_cons_self x t⟩
  have hb0 := minMaxFold_bounds hs0 (hlt _ hs0)
  rcases new_with_slots_ok hok with ⟨hlen, hcase⟩
  rcases hcase with ⟨hsent, rfl⟩ | ⟨hsent, st, hst, rfl⟩
  · exact absurd hsent (by omega)
  · constructor
    · constructor
      · rw [rangeStart_mk, minMaxFold_fst]
        rcases foldl_min_eq_init_or_mem slots (U64 - 1) with he | hmem
        · exfalso
          have h1 := foldl_min_le_mem hs0 (U64 - 1)
          have h2 := hlt _ hs0
          omega
        · exact hmem
      · intro s hs
        rw [rangeStart_mk]
        exact minMaxFold_fst_le hs
    · rcases foldl_max_eq_init_or_mem slots 0 with he | ⟨m, hm, he⟩
      · exfalso
        have h1 := foldl_max_ge_mem hs0 0
        rw [mod_drop (hlt _ hs0), he] at h1
        omega
      · refine ⟨m, hm, ?_, ?_⟩
        · rw [rangeEnd_mk, minMaxFold_snd, he, mod_drop (hlt _ hm)]
        · intro s hs
          have h1 := foldl_max_ge_mem hs 0
          rw [mod_drop (hlt _ hs), he, mod_drop (hlt _ hm)] at h1
          omega

/-- Witness for the amended C2 on the two-storage input at slots 4 and 7. -/
theorem C2_witness :
    ∃ m ∈ [(4 : Nat), 7],
      SortedStorages.rangeEnd ⟨4, 8, [some 0, none, none, some 1], 2⟩ =
          m + 1 ∧
        ∀ s ∈ [(4 : Nat), 7], s ≤ m :=
  (C2_range_correct [[], []] [4, 7]
    ⟨4, 8, [some 0, none, none, some 1], 2⟩ (by decide) (by decide) rfl).2

/-- Counterexample to claim C5 as stated: both pairs share the slot
`Slot::MAX = 2^64 - 1`, yet construction succeeds (with the degenerate empty
view) instead of failing with the duplicate-slot error, because the wrapped
`min > max` sentinel skips the placement loop that enforces uniqueness. -/
theorem C5_counterexample :
    new_with_slots [[], []] [U64 - 1, U64 - 1] = .ok ⟨0, 0, [], 2⟩ := rfl

/-- Claim C5, amended: for every equal-length input in which two pairs share
the same slot number and every slot is additionally below
`Slot::MAX = 2^64 - 1`, construction fails with the duplicate-slot error
instead of silently overwriting an entry. -/
theorem C5_duplicate_rejected (source : List SnapshotStorage)
    (slots : List Nat)
    (hlen : source.length = slots.length)
    (hlt : ∀ s ∈ slots, s < U64 - 1)
    (i j : Nat) (hi : i < slots.length) (hj : j < slots.length)
    (hij : i ≠ j)
    (hdup : slots.get ⟨i, hi⟩ = slots.get ⟨j, hj⟩) :
    new_with_slots source slots = .error .duplicateSlot := by
  have hmem : slots.get ⟨i, hi⟩ ∈ slots := List.get_mem slots i hi
  have hb := minMaxFold_bounds hmem (hlt _ hmem)
  have hnodup : ¬ slots.Nodup := by
    intro hn
    have hinj := List.nodup_iff_injective_get.1 hn hdup
    exact hij (congrArg Fin.val hinj)
  unfold new_with_slots
  rw [if_pos hlen]
  simp only []
  rw [if_neg (by omega :
    ¬ (minMaxFold slots).2 < (minMaxFold slots).1)]
  have hbound : ∀ s ∈ slots, s - (minMaxFold slots).1 <
      (List.replicate ((minMaxFold slots).2 - (minMaxFold slots).1)
        (none : Option Nat)).length := by
    intro s hs
    rw [List.length_replicate]
    have hbs := minMaxFold_bounds hs (hlt _ hs)
    omega
  rw [placeAll_dup_fails hbound hnodup]
  rfl

/-- Witness for the amended C5: two pairs both at slot 3. -/
theorem C5_witness :
    new_with_slots [[], []] [3, 3] = .error .duplicateSlot :=
  C5_duplicate_rejected [[], []] [3, 3] rfl (by decide) 0 1 (by decide)
    (by decide) (by decide) rfl

/-- Claim C8: the derived-slots constructor `new` fails with the
empty-container error whenever some supplied storage has no first element;
otherwise it derives each storage's representative slot from its first entry
and returns exactly what `new_with_slots` returns on the same storages with
that derived slot list. -/
theorem C8_new_delegates (source : List SnapshotStorage) :
    (([] ∈ source) → new source = .error .emptyContainer) ∧
      ((∀ c ∈ source, c ≠ []) →
        deriveSlots source = .ok (source.map fun c => c.headD 0) ∧
          new source =
            new_with_slots source (source.map fun c => c.headD 0)) := by
  constructor
  · intro h
    unfold new
    rw [deriveSlots_error h]
    rfl
  · intro h
    refine ⟨deriveSlots_ok h, ?_⟩
    unfold new
    rw [deriveSlots_ok h]
    rfl

/-- Witness for C8: an empty storage is rejected; two non-empty storages with
first entries at slots 4 and 7 delegate to the explicit-slots constructor. -/
theorem C8_witness :
    new [[]] = .error .emptyContainer ∧
      new [[4], [7]] = new_with_slots [[4], [7]] [4, 7] := by
  constructor
  · exact (C8_new_delegates [[]]).1 (List.mem_cons_self [] [])
  · have h := (C8_new_delegates [[4], [7]]).2 (by decide)
    simpa using h.2

/-- Counterexample to claim C10 as stated: the non-empty input `[0, 2^64 - 1]`
contains the maximum slot value, but the `min > max` sentinel does NOT fire
(`min = 0`, `max = 1`): construction enters the placement loop and panics with
an out-of-bounds index instead of yielding the empty-range view. -/
theorem C10_counterexample :
    new_with_slots [[], []] [0, U64 - 1] = .error .indexOutOfBounds := rfl

/-- Claim C10, amended: for any non-empty input all of whose slots equal the
maximum value `2^64 - 1`, the wrapped `max = max(slot + 1, max)` computation
leaves `max = 0 < min = 2^64 - 1`, the sentinel test succeeds, and
construction yields the empty range with an empty table — every lookup
returns absent, including for the supplied slots — while `slot_count` still
equals the non-zero input length. -/
theorem C10_max_slot_wraparound (source : List SnapshotStorage)
    (slots : List Nat)
    (hne : slots ≠ [])
    (hall : ∀ s ∈ slots, s = U64 - 1)
    (hlen : source.length = slots.length) :
    ∃ ss, new_with_slots source slots = .ok ss ∧
      ss.rangeStart = 0 ∧ ss.rangeEnd = 0 ∧ ss.storages = [] ∧
      ss.slot_count = source.length ∧ 0 < ss.slot_count ∧
      ∀ t, ss.get t = .ok none := by
  have hmin : (minMaxFold slots).1 = U64 - 1 := by
    rw [minMaxFold_fst]
    have h1 := foldl_min_le_init slots (U64 - 1)
    have h2 := foldl_min_ge (U64 - 1) (Nat.le_refl _)
      (fun s hs => (hall s hs).ge)
    omega
  have hmax : (minMaxFold slots).2 = 0 := by
    rw [minMaxFold_snd]
    have h2 := foldl_max_le 0 (Nat.le_refl 0)
      (fun s hs => by rw [hall s hs, max_slot_wrap])
    omega
  have hpos : 0 < source.length := by
    rw [hlen]
    exact List.length_pos.2 hne
  refine ⟨⟨0, 0, [], source.length⟩, ?_, rfl, rfl, rfl, rfl, hpos,
    fun t => get_empty_view _ t⟩
  unfold new_with_slots
  rw [if_pos hlen]
  simp only []
  rw [if_pos (by rw [hmin, hmax]; unfold U64; omega :
    (minMaxFold slots).2 < (minMaxFold slots).1)]

/-- Witness for the amended C10: two storages both at slot `2^64 - 1`. -/
theorem C10_witness :
    ∃ ss, new_with_slots [[], []] [U64 - 1, U64 - 1] = .ok ss ∧
      ss.rangeStart = 0 ∧ ss.rangeEnd = 0 ∧ ss.storages = [] ∧
      ss.slot_count = List.length ([[], []] : List SnapshotStorage) ∧
      0 < ss.slot_count ∧
      ∀ t, ss.get t = .ok none :=
  C10_max_slot_wraparound [[], []] [U64 - 1, U64 - 1] (by decide)
    (by decide) rfl
